import Mathlib

/-!
# Verification of the ResultsAnalyser table-reconstruction engine

Shallow embedding of `transformOcrWordsToTable_BBox` (the canonical variant:
rowTolerance = 30, header detection with lexical + structural signals,
fallback scan, gap-based column segmentation, padding, HTML build) together
with proofs of the specification's claims about it.

Pixel coordinates are embedded as exact rationals (`ℚ`); the JS source uses
IEEE doubles, but every comparison and arithmetic operation of the algorithm
is exact on the inputs considered here, and the algorithm's logic is stated
over real-valued coordinates.
-/

namespace ResultsAnalyser

/-- Bounding box of a recognized word: `{x0, y0, x1, y1}`, origin top-left. -/
structure BBox where
  x0 : ℚ
  y0 : ℚ
  x1 : ℚ
  y1 : ℚ
  deriving DecidableEq, Repr

/-- A recognized word: token text plus bounding box (source: `OcrWord`,
`{ text, bbox }`; the optional confidence field is never read by the
reconstruction algorithm and is omitted). -/
structure Word where
  text : String
  bbox : BBox
  deriving DecidableEq, Repr

/-- A row during clustering (source: `{ y: number, words: any[] }`):
`y` is the representative vertical position, `words` the member words in
cluster-assignment order. -/
structure Row where
  y : ℚ
  words : List Word
  deriving DecidableEq, Repr

/-- Result of the reconstruction.  The source returns
`{ structuredData, htmlTable }`; the header indices
(`potentialHeaderIndices` in the source) are additionally exposed here
because the spec's `TableBuilder` contract names them as an output and
they are consumed by the HTML build. -/
structure TableResult where
  structuredData : List (List String)
  headerRowIndices : List Nat
  htmlTable : String
  deriving DecidableEq, Repr

/-- `rowTolerance = 30` (source: "Increased tolerance for row grouping"). -/
def rowTolerance : ℚ := 30

/-- `gapThreshold = 20` (source: gap above which a new cell starts). -/
def gapThreshold : ℚ := 20

/-- Vertical center of a word: `(bbox.y0 + bbox.y1) / 2`. -/
def midY (w : Word) : ℚ := (w.bbox.y0 + w.bbox.y1) / 2

/-- Comparator of the initial word sort (source: stable `.sort` by
vertical center ascending). -/
def wordLE (a b : Word) : Prop := midY a ≤ midY b

/-- Strict version of `wordLE`, used to reason about uniqueness of the
sorted order. -/
def wordLT (a b : Word) : Prop := midY a < midY b

/-- Comparator of the per-row word sort (source: `.sort` by `bbox.x0`). -/
def wordXLE (a b : Word) : Prop := a.bbox.x0 ≤ b.bbox.x0

/-- Comparator of the final row sort (source: `.sort` by `y` ascending). -/
def rowLE (a b : Row) : Prop := a.y ≤ b.y

instance : DecidableRel wordLE := fun a b => inferInstanceAs (Decidable (midY a ≤ midY b))

instance : DecidableRel wordLT := fun a b => inferInstanceAs (Decidable (midY a < midY b))

instance : DecidableRel wordXLE := fun a b => inferInstanceAs (Decidable (a.bbox.x0 ≤ b.bbox.x0))

instance : DecidableRel rowLE := fun a b => inferInstanceAs (Decidable (a.y ≤ b.y))

instance : IsTotal Word wordLE := ⟨fun a b => le_total (midY a) (midY b)⟩

instance : IsTrans Word wordLE := ⟨fun _ _ _ h1 h2 => le_trans h1 h2⟩

instance : IsAntisymm Word wordLT := ⟨fun _ _ h1 h2 => absurd h2 (not_lt_of_lt h1)⟩

/-- The initial stable sort of all words by vertical center
(source: `[...words].sort((a, b) => midYA - midYB)`; JS `Array.sort` is
stable, which `List.insertionSort` models). -/
def sortWords (ws : List Word) : List Word := List.insertionSort wordLE ws

/-- The per-row stable sort of words left-to-right
(source: `row.words.sort((a, b) => a.bbox.x0 - b.bbox.x0)`). -/
def sortX (ws : List Word) : List Word := List.insertionSort wordXLE ws

/-- One clustering step (source: `rows.find(r => Math.abs(r.y - midY) <
rowTolerance)`, then either mutate the found row — push the word FIRST,
then set `y = (y * words.length + midY) / (words.length + 1)` with the
length already including the new word — or `rows.push({y: midY, words:
[word]})`).  `c` is the word's vertical center. -/
def insertWord (c : ℚ) (w : Word) : List Row → List Row
  | [] => [⟨c, [w]⟩]
  | r :: rs =>
    if |r.y - c| < rowTolerance then
      ⟨(r.y * ((r.words.length : ℚ) + 1) + c) / ((r.words.length : ℚ) + 2),
        r.words ++ [w]⟩ :: rs
    else
      r :: insertWord c w rs

/-- Cluster the (already vertically sorted) words into rows
(source: `sortedWords.forEach(word => { ... })` over the mutable `rows`
array). -/
def clusterFold (ws : List Word) : List Row :=
  ws.foldl (fun rows w => insertWord (midY w) w rows) []

/-- Rows of the reconstruction, ordered top-to-bottom
(source: sort words by vertical center, cluster, then
`rows.sort((a, b) => a.y - b.y)`). -/
def clusterRows (ws : List Word) : List Row :=
  List.insertionSort rowLE (clusterFold (sortWords ws))

/-- Fold a word measure to its minimum over a word list.  The source seeds
with `Infinity` and folds `Math.min`; here the fold is seeded from the
first element, which agrees on every nonempty list, and the bounds are
only consumed on nonempty input (the empty case returns early). -/
def foldMinQ (f : Word → ℚ) : List Word → ℚ
  | [] => 0
  | w :: rest => rest.foldl (fun m v => min m (f v)) (f w)

/-- Fold a word measure to its maximum over a word list (source seeds with
`-Infinity` and folds `Math.max`; see `foldMinQ`). -/
def foldMaxQ (f : Word → ℚ) : List Word → ℚ
  | [] => 0
  | w :: rest => rest.foldl (fun m v => max m (f v)) (f w)

/-- `minY` of the document (source: fold of `Math.min` over `bbox.y0`). -/
def docMinY (ws : List Word) : ℚ := foldMinQ (fun w => w.bbox.y0) (sortWords ws)

/-- `maxY` of the document (fold of `Math.max` over `bbox.y1`). -/
def docMaxY (ws : List Word) : ℚ := foldMaxQ (fun w => w.bbox.y1) (sortWords ws)

/-- `minX` of the document (fold of `Math.min` over `bbox.x0`). -/
def docMinX (ws : List Word) : ℚ := foldMinQ (fun w => w.bbox.x0) (sortWords ws)

/-- `maxX` of the document (fold of `Math.max` over `bbox.x1`). -/
def docMaxX (ws : List Word) : ℚ := foldMaxQ (fun w => w.bbox.x1) (sortWords ws)

/-- `docWidth = maxX - minX`. -/
def docWidth (ws : List Word) : ℚ := docMaxX ws - docMinX ws

/-- `docHeight = maxY - minY`. -/
def docHeight (ws : List Word) : ℚ := docMaxY ws - docMinY ws

/-- The fixed header vocabulary (source: `headerTerms`). -/
def headerTerms : List String :=
  ["testen", "resultaten", "test", "result", "parameter", "waarde",
   "eenheid", "eenheden", "onderl", "bovenl"]

/-- Whether `needle` matches at the head of `hay` (character-wise). -/
def matchesAt : List Char → List Char → Bool
  | [], _ => true
  | _ :: _, [] => false
  | c :: cs, d :: ds => c == d && matchesAt cs ds

/-- Whether `needle` occurs contiguously anywhere in `hay`
(model of JS `String.prototype.includes`). -/
def subSeq (needle : List Char) : List Char → Bool
  | [] => matchesAt needle []
  | d :: ds => matchesAt needle (d :: ds) || subSeq needle ds

/-- Character-wise ASCII lowering (model of JS `toLowerCase`, which maps
each character independently for the texts involved here; stated over
the character list so that it evaluates in the kernel). -/
def lowerStr (s : String) : String := String.mk (s.data.map Char.toLower)

/-- The row's concatenated lowercase text
(source: `row.words.map(w => w.text.toLowerCase()).join(' ')`, computed
after the row's words were sorted left-to-right). -/
def rowTextOf (ws : List Word) : String :=
  String.intercalate " " (ws.map (fun w => lowerStr w.text))

/-- Lexical header signal: the row text contains some header term
(source: `headerTerms.some(term => rowText.includes(term))`). -/
def lexMatchB (ws : List Word) : Bool :=
  headerTerms.any (fun t => subSeq t.toList (rowTextOf ws).toList)

/-- `x0` of the first word of a (sorted) row; the source reads
`row.words[0].bbox.x0` and only on nonempty rows. -/
def leftX : List Word → ℚ
  | [] => 0
  | w :: _ => w.bbox.x0

/-- `x1` of the last word of a (sorted) row; the source reads
`row.words[row.words.length - 1].bbox.x1`. -/
def rightX1 (ws : List Word) : ℚ :=
  match ws.getLast? with
  | none => 0
  | some w => w.bbox.x1

/-- `rowWidth = rightmostX - leftmostX` over the x-sorted words. -/
def rowSpan (ws : List Word) : ℚ := rightX1 ws - leftX ws

/-- Consecutive gaps after a given word
(source: `gaps.push(words[i].bbox.x0 - words[i-1].bbox.x1)`). -/
def gapsFrom (prev : Word) : List Word → List ℚ
  | [] => []
  | w :: rest => (w.bbox.x0 - prev.bbox.x1) :: gapsFrom w rest

/-- The list of consecutive inter-word gaps of a row. -/
def rowGaps : List Word → List ℚ
  | [] => []
  | w :: rest => gapsFrom w rest

/-- Even-spacing signal (source: with at least 3 words, compute the gaps,
their mean `avgGap`, population standard deviation `stdDev`, and test
`stdDev / avgGap < 0.7`).  Over the reals, for `avgGap > 0` that test is
equivalent to `variance < (0.7 * avgGap)^2`, which avoids the square
root; for `avgGap < 0` the quotient is `≤ 0` hence the test holds, and
for `avgGap = 0` the JS quotient is `NaN` or `Infinity`, so the test
fails. -/
def evenSpacingB (ws : List Word) : Bool :=
  if 3 ≤ ws.length then
    let gaps := rowGaps ws
    let avg := gaps.sum / (gaps.length : ℚ)
    let v := (gaps.map (fun g => (g - avg) ^ 2)).sum / (gaps.length : ℚ)
    if 0 < avg then decide (v < (7 / 10 * avg) ^ 2) else decide (avg < 0)
  else false

/-- Primary per-row header test (source: `containsHeaderTerm ||
(row.words.length >= 3 && rowWidthRatio > 0.5 && isInTopThird &&
hasEvenSpacing)`, where `rowWidthRatio = rowWidth / docWidth` and
`isInTopThird` is `row.y < minY + docHeight / 3`). -/
def isHeaderRowB (mY dW dH : ℚ) (r : Row) : Bool :=
  lexMatchB (sortX r.words) ||
    (decide (3 ≤ r.words.length) &&
      decide (1 / 2 < rowSpan (sortX r.words) / dW) &&
      decide (r.y < mY + dH / 3) &&
      evenSpacingB (sortX r.words))

/-- The primary header scan (source: `rows.forEach((row, index) => { ...
if (isHeaderRow) potentialHeaderIndices.push(index); })`); `b` is the
index of the first row of the remaining list. -/
def primaryGo (mY dW dH : ℚ) (b : Nat) : List Row → List Nat
  | [] => []
  | r :: rs =>
    if isHeaderRowB mY dW dH r then b :: primaryGo mY dW dH (b + 1) rs
    else primaryGo mY dW dH (b + 1) rs

/-- Fallback qualification of a row (source: `rows[i].words.length >= 3`
and, over the x-sorted words, `rowWidth / docWidth > 0.4`). -/
def fbQualB (dW : ℚ) (r : Row) : Bool :=
  decide (3 ≤ r.words.length) && decide (2 / 5 < rowSpan (sortX r.words) / dW)

/-- The fallback scan (source: `for (let i = 0; i < Math.min(5,
rows.length); i++) { ... push(i); break; }`): scan rows from index `i`,
stop at index 5, return the first qualifying index. -/
def fbGo (dW : ℚ) (i : Nat) : List Row → List Nat
  | [] => []
  | r :: rs =>
    if 5 ≤ i then []
    else if fbQualB dW r then [i] else fbGo dW (i + 1) rs

/-- Header classification (source: the primary scan, then `if
(potentialHeaderIndices.length === 0 && rows.length > 1)` the fallback
scan over the first five rows). -/
def headerIdxs (mY dW dH : ℚ) (rows : List Row) : List Nat :=
  let p := primaryGo mY dW dH 0 rows
  if p.isEmpty && decide (1 < rows.length) then fbGo dW 0 rows else p

/-- The segmentation loop (source: accumulate `currentCellText`, close the
cell when `gap > gapThreshold`, push the final cell after the loop). -/
def segmentGo (t : ℚ) (acc : String) (prev : Word) : List Word → List String
  | [] => [acc]
  | w :: rest =>
    if t < w.bbox.x0 - prev.bbox.x1 then
      acc :: segmentGo t w.text w rest
    else
      segmentGo t (acc ++ " " ++ w.text) w rest

/-- Column segmentation of one row of (x-sorted) words into cell strings;
the threshold is a parameter (the pipeline applies `gapThreshold`).
A row with zero words produces zero cells (source: early `return []`). -/
def segmentCells (t : ℚ) : List Word → List String
  | [] => []
  | w :: rest => segmentGo t w.text w rest

/-- The per-row cell lists (source: `rows.map(row => { sort; segment })`). -/
def cellRows (ws : List Word) : List (List String) :=
  (clusterRows ws).map (fun r => segmentCells gapThreshold (sortX r.words))

/-- `numColumns = Math.max(...structuredRows.map(r => r.length), 1)`. -/
def numCols (ws : List Word) : Nat :=
  ((cellRows ws).map List.length).foldl max 1

/-- Right-pad a row of cells with the placeholder `"—"` up to `n` cells
(source: `while (newRow.length < numColumns) newRow.push("—")`, which on
a row of length `≤ n` appends exactly `n - length` placeholders). -/
def padRow (n : Nat) (row : List String) : List String :=
  row ++ List.replicate (n - row.length) "—"

/-- The final rectangular grid (source: `paddedRows`). -/
def gridOf (ws : List Word) : List (List String) :=
  (cellRows ws).map (padRow (numCols ws))

/-- Header indices of the pipeline: classification applied to the
clustered rows with the document bounds. -/
def headerIdxsOf (ws : List Word) : List Nat :=
  headerIdxs (docMinY ws) (docWidth ws) (docHeight ws) (clusterRows ws)

/-- One HTML cell (source: `<td>${content}</td>` or `<th>...` where
`content` is the trimmed cell text, or `"—"` if blank). -/
def cellHtml (tag : String) (cell : String) : String :=
  "<" ++ tag ++ ">" ++ (if cell.trim = "" then "—" else cell.trim) ++ "</" ++ tag ++ ">"

/-- One HTML row: header rows use `<tr class='header-row'>` and `<th>`
cells, other rows `<tr>` and `<td>` cells. -/
def rowHtml (hdrs : List Nat) (i : Nat) (row : List String) : String :=
  if hdrs.contains i then
    "<tr class=\x27header-row\x27>" ++ String.join (row.map (cellHtml "th")) ++ "</tr>"
  else
    "<tr>" ++ String.join (row.map (cellHtml "td")) ++ "</tr>"

/-- The HTML table string (source: sequential string appends over the
padded rows). -/
def htmlOf (grid : List (List String)) (hdrs : List Nat) : String :=
  "<table>" ++ String.join (grid.enum.map (fun p => rowHtml hdrs p.1 p.2)) ++ "</table>"

/-- The reconstruction entry point, `transformOcrWordsToTable_BBox`:
empty input returns the empty result early (source: `if (!words ||
words.length === 0) return { structuredData: [], htmlTable:
"<table></table>" }`); otherwise sort, cluster, classify headers,
segment, pad, and render.  The function is total: it never throws. -/
def transform : List Word → TableResult
  | [] => ⟨[], [], "<table></table>"⟩
  | w :: rest =>
    ⟨gridOf (w :: rest), headerIdxsOf (w :: rest),
      htmlOf (gridOf (w :: rest)) (headerIdxsOf (w :: rest))⟩

/-- Helper to build a word from its text and box corners. -/
def mkWord (t : String) (a b c d : ℚ) : Word := ⟨t, ⟨a, b, c, d⟩⟩

/-- The invariant actually maintained by the clusterer's running update:
a row is nonempty, and its representative `y` is the arithmetic mean of
its member words' vertical centers with the seed word's center counted
twice — `(c0 + (c0 + c1 + ... + cn)) / (n + 2)` for members with centers
`c0, ..., cn`.  (The source pushes the word before reading
`words.length`, so each update divides by the post-insertion count plus
one.) -/
def rowInv (r : Row) : Prop :=
  ∃ w0 tl, r.words = w0 :: tl ∧
    r.y = (midY w0 + (r.words.map midY).sum) / ((r.words.length : ℚ) + 1)

/-- The maximum cell count over all rows, exactly as the claim words it
(no floor at 1), for comparison with `numCols`. -/
def specMaxCellCount (ws : List Word) : Nat :=
  ((cellRows ws).map List.length).foldl max 0

/-- The six-word lab-report scenario of the spec (§8, scenarios 1–2). -/
def labWords : List Word :=
  [mkWord "Test" 0 0 40 10, mkWord "Result" 200 0 260 10, mkWord "Unit" 400 0 440 10,
   mkWord "Hemoglobine" 0 50 100 60, mkWord "13.5" 200 50 240 60, mkWord "g/dL" 400 50 440 60]

/-- Two words with vertical centers 5 and 15 — both join one row. -/
def c1ws : List Word := [mkWord "a" 0 0 10 10, mkWord "b" 0 10 10 20]

/-- The single row produced by clustering `c1ws`. -/
def c1row : Row := ⟨25 / 3, [mkWord "a" 0 0 10 10, mkWord "b" 0 10 10 20]⟩

/-- One row of two far-apart words — used to instantiate C2. -/
def c2ws : List Word := [mkWord "x" 0 0 10 10, mkWord "y" 100 0 140 10]

/-- Two words with identical bounding boxes but different texts. -/
def c3a : List Word := [mkWord "a" 0 0 10 10, mkWord "b" 0 0 10 10]

/-- The reversal of `c3a`. -/
def c3b : List Word := [mkWord "b" 0 0 10 10, mkWord "a" 0 0 10 10]

/-- Two words with distinct vertical centers (5 and 55). -/
def c3wA : List Word := [mkWord "p" 0 0 10 10, mkWord "q" 0 50 10 60]

/-- The reversal of `c3wA`. -/
def c3wB : List Word := [mkWord "q" 0 50 10 60, mkWord "p" 0 0 10 10]

/-- One row of two words with a 15-pixel gap. -/
def c4ws : List Word := [mkWord "p" 0 0 10 10, mkWord "q" 25 0 40 10]

/-- Four words: a top row of three evenly spaced words spanning exactly
half the document width (the fourth word, lower, fixes the width at
140), none containing a header term. -/
def c5ws : List Word :=
  [mkWord "aaa" 0 0 10 10, mkWord "bbb" 30 0 40 10, mkWord "ccc" 60 0 70 10,
   mkWord "ddd" 0 100 140 110]

/-- The first clustered row of `c5ws`. -/
def c5row0 : Row :=
  ⟨5, [mkWord "aaa" 0 0 10 10, mkWord "bbb" 30 0 40 10, mkWord "ccc" 60 0 70 10]⟩

/-- A single-word row containing the header term "test". -/
def c5wit : Row := ⟨5, [mkWord "test" 0 0 10 10]⟩

/-- Two rows: a single-word row, then a three-word row that spans 140 of
a 300-pixel-wide document (ratio above 0.4 but not above 0.5). -/
def c6rows : List Row :=
  [⟨5, [mkWord "zzz" 0 0 10 10]⟩,
   ⟨55, [mkWord "aaa" 0 50 30 60, mkWord "bbb" 40 50 70 60, mkWord "ccc" 80 50 140 60]⟩]

section Proofs

attribute [local semireducible] Rat.add Rat.sub Rat.mul Rat.inv

lemma rowInv_seed (w : Word) : rowInv ⟨midY w, [w]⟩ := by
  refine ⟨w, [], rfl, ?_⟩
  simp only [List.map_cons, List.map_nil, List.sum_cons, List.sum_nil, List.length_cons,
    List.length_nil, Nat.cast_zero]
  ring

lemma insertWord_inv (w : Word) :
    ∀ rows : List Row, (∀ r ∈ rows, rowInv r) →
      ∀ r ∈ insertWord (midY w) w rows, rowInv r := by
  intro rows
  induction rows with
  | nil =>
    intro _ r hr
    simp only [insertWord, List.mem_singleton] at hr
    subst hr
    exact rowInv_seed w
  | cons r0 rs ih =>
    intro hall r hr
    simp only [insertWord] at hr
    by_cases hc : |r0.y - midY w| < rowTolerance
    · rw [if_pos hc] at hr
      rcases List.mem_cons.mp hr with hEq | hTl
      · subst hEq
        obtain ⟨w0, tl, hw, hy⟩ := hall r0 (List.mem_cons_self r0 rs)
        have hlen : ((r0.words.length : ℚ) + 1) ≠ 0 := by positivity
        refine ⟨w0, tl ++ [w], by simp [hw], ?_⟩
        simp only [List.map_append, List.sum_append, List.map_cons, List.map_nil,
          List.sum_cons, List.sum_nil, List.length_append, List.length_cons,
          List.length_nil, Nat.cast_add, Nat.cast_one, Nat.cast_zero]
        rw [hy, div_mul_cancel₀ _ hlen]
        ring
      · exact hall r (List.mem_cons_of_mem r0 hTl)
    · rw [if_neg hc] at hr
      rcases List.mem_cons.mp hr with hEq | hTl
      · subst hEq
        exact hall r (List.mem_cons_self r rs)
      · exact ih (fun x hx => hall x (List.mem_cons_of_mem r0 hx)) r hTl

lemma clusterFold_go_inv :
    ∀ (ws : List Word) (rows : List Row), (∀ r ∈ rows, rowInv r) →
      ∀ r ∈ ws.foldl (fun rows w => insertWord (midY w) w rows) rows, rowInv r := by
  intro ws
  induction ws with
  | nil => intro rows hall r hr; exact hall r hr
  | cons w ws ih =>
    intro rows hall r hr
    exact ih (insertWord (midY w) w rows) (insertWord_inv w rows hall) r hr

/-- Every row produced by the clustering pipeline satisfies `rowInv`. -/
lemma clusterRows_inv (ws : List Word) : ∀ r ∈ clusterRows ws, rowInv r := by
  intro r hr
  rw [clusterRows, List.mem_insertionSort] at hr
  exact clusterFold_go_inv (sortWords ws) [] (by intro x hx; cases hx) r hr

lemma rowInv_words_ne_nil {r : Row} (h : rowInv r) : r.words ≠ [] := by
  obtain ⟨w0, tl, hw, -⟩ := h
  simp [hw]

lemma segmentGo_length (t : ℚ) :
    ∀ (l : List Word) (acc : String) (prev : Word),
      (segmentGo t acc prev l).length =
        1 + (gapsFrom prev l).countP (fun g => decide (t < g)) := by
  intro l
  induction l with
  | nil => intro acc prev; simp [segmentGo, gapsFrom]
  | cons w rest ih =>
    intro acc prev
    simp only [segmentGo, gapsFrom, List.countP_cons]
    by_cases hg : t < w.bbox.x0 - prev.bbox.x1
    · rw [if_pos hg]
      simp [ih, hg]
      omega
    · rw [if_neg hg]
      simp [ih, hg]

lemma segmentGo_ne_nil (t : ℚ) :
    ∀ (l : List Word) (acc : String) (prev : Word), segmentGo t acc prev l ≠ [] := by
  intro l
  induction l with
  | nil => intro acc prev; simp [segmentGo]
  | cons w rest ih =>
    intro acc prev
    simp only [segmentGo]
    by_cases hg : t < w.bbox.x0 - prev.bbox.x1
    · rw [if_pos hg]; simp
    · rw [if_neg hg]; exact ih _ _

lemma le_foldl_max : ∀ (L : List Nat) (b : Nat), b ≤ L.foldl max b := by
  intro L
  induction L with
  | nil => intro b; exact Nat.le_refl b
  | cons a tl ih =>
    intro b
    exact Nat.le_trans (le_max_left b a) (ih (max b a))

lemma mem_le_foldl_max : ∀ (L : List Nat) (b a : Nat), a ∈ L → a ≤ L.foldl max b := by
  intro L
  induction L with
  | nil => intro b a ha; cases ha
  | cons c tl ih =>
    intro b a ha
    rcases List.mem_cons.mp ha with rfl | hmem
    · exact Nat.le_trans (le_max_right b a) (le_foldl_max tl (max b a))
    · exact ih (max b c) a hmem

lemma foldl_max_one_eq_zero (L : List Nat) (hL : L ≠ []) (h1 : ∀ x ∈ L, 1 ≤ x) :
    L.foldl max 1 = L.foldl max 0 := by
  cases L with
  | nil => exact absurd rfl hL
  | cons a tl =>
    have ha : 1 ≤ a := h1 a (List.mem_cons_self a tl)
    simp only [List.foldl_cons]
    rw [max_eq_right ha, max_eq_right (Nat.zero_le a)]

lemma primaryGo_mem (mY dW dH : ℚ) :
    ∀ (rows : List Row) (b j : Nat),
      j ∈ primaryGo mY dW dH b rows ↔
        ∃ k r, rows.get? k = some r ∧ j = b + k ∧ isHeaderRowB mY dW dH r = true := by
  intro rows
  induction rows with
  | nil =>
    intro b j
    simp [primaryGo]
  | cons r0 rs ih =>
    intro b j
    simp only [primaryGo]
    by_cases h0 : isHeaderRowB mY dW dH r0 = true
    · rw [if_pos h0]
      constructor
      · intro hj
        rcases List.mem_cons.mp hj with rfl | hmem
        · exact ⟨0, r0, rfl, by omega, h0⟩
        · obtain ⟨k, r, hget, hjk, hr⟩ := (ih (b + 1) j).mp hmem
          exact ⟨k + 1, r, hget, by omega, hr⟩
      · rintro ⟨k, r, hget, rfl, hr⟩
        cases k with
        | zero =>
          simp only [List.get?_cons_zero, Option.some.injEq] at hget
          subst hget
          exact List.mem_cons_self _ _
        | succ k =>
          refine List.mem_cons_of_mem _ ((ih (b + 1) _).mpr ⟨k, r, hget, by omega, hr⟩)
    · rw [if_neg h0]
      constructor
      · intro hj
        obtain ⟨k, r, hget, hjk, hr⟩ := (ih (b + 1) j).mp hj
        exact ⟨k + 1, r, hget, by omega, hr⟩
      · rintro ⟨k, r, hget, rfl, hr⟩
        cases k with
        | zero =>
          simp only [List.get?_cons_zero, Option.some.injEq] at hget
          subst hget
          exact absurd hr h0
        | succ k =>
          exact (ih (b + 1) _).mpr ⟨k, r, hget, by omega, hr⟩

lemma fbGo_eq (dW : ℚ) :
    ∀ (rows : List Row) (i : Nat),
      fbGo dW i rows =
        match (List.enumFrom i (rows.take (5 - i))).find? (fun p => fbQualB dW p.2) with
        | some p => [p.1]
        | none => [] := by
  intro rows
  induction rows with
  | nil => intro i; simp [fbGo]
  | cons r rs ih =>
    intro i
    by_cases h5 : 5 ≤ i
    · have h0 : 5 - i = 0 := by omega
      simp [fbGo, h5, h0]
    · have hstep : 5 - i = (5 - (i + 1)) + 1 := by omega
      rw [fbGo, if_neg h5, hstep]
      simp only [List.take_succ_cons, List.enumFrom_cons, List.find?_cons]
      by_cases hq : fbQualB dW r = true
      · simp [hq]
      · simp only [Bool.not_eq_true] at hq
        simp [hq, ih (i + 1)]

/-- `transform` on a nonempty list unfolds to the pipeline pieces. -/
lemma transform_cons (w : Word) (l : List Word) :
    transform (w :: l) =
      ⟨gridOf (w :: l), headerIdxsOf (w :: l),
        htmlOf (gridOf (w :: l)) (headerIdxsOf (w :: l))⟩ := rfl

/-- C7: for an empty input word list the reconstruction returns an empty
grid, an empty header-row index set, and the empty table shell
`"<table></table>"`; `transform` is a total function, so no exception
can be raised. -/
theorem C7_empty : transform [] = ⟨[], [], "<table></table>"⟩ := rfl

/-- C9: on the concrete six-word lab-report input with the pipeline's
gap threshold of 20, the reconstruction returns the grid
`[["Test","Result","Unit"], ["Hemoglobine","13.5","g/dL"]]` and the
header-row index set `{0}`. -/
theorem C9_scenario :
    (transform labWords).structuredData =
        [["Test", "Result", "Unit"], ["Hemoglobine", "13.5", "g/dL"]] ∧
      (transform labWords).headerRowIndices = [0] := by
  decide

/-- C8: row-membership invariant of the clusterer, as a complete
characterization of the insertion step that `clusterFold` applies to
every word against every intermediate row state.  Either the word `w` is
appended to the first existing row `r` whose representative y is within
`rowTolerance` of the word's vertical center — the tolerance evaluated
against `r`'s y BEFORE the average is updated by `w`, as the exhibited
updated entry (built from `r.y` and `r.words`) shows — or no existing
row is within tolerance and a new row seeded with `w` is pushed at the
end.  Hence a word is ever assigned to an existing row only when
`|verticalCenter(word) - representativeY| < rowTolerance` held at the
moment of insertion. -/
theorem C8_assignment (rows : List Row) (w : Word) :
    (∃ i r, rows.get? i = some r ∧
        |midY w - r.y| < rowTolerance ∧
        (∀ j s, j < i → rows.get? j = some s → ¬(|midY w - s.y| < rowTolerance)) ∧
        insertWord (midY w) w rows =
          rows.set i
            ⟨(r.y * ((r.words.length : ℚ) + 1) + midY w) / ((r.words.length : ℚ) + 2),
              r.words ++ [w]⟩) ∨
      ((∀ r ∈ rows, ¬(|midY w - r.y| < rowTolerance)) ∧
        insertWord (midY w) w rows = rows ++ [⟨midY w, [w]⟩]) := by
  induction rows with
  | nil =>
    right
    exact ⟨fun r hr => absurd hr (List.not_mem_nil r), rfl⟩
  | cons r0 rs ih =>
    by_cases h0 : |r0.y - midY w| < rowTolerance
    · left
      refine ⟨0, r0, rfl, by rwa [abs_sub_comm], ?_, ?_⟩
      · intro j s hj _
        omega
      · simp only [insertWord]
        rw [if_pos h0]
        rfl
    · rcases ih with ⟨i, r, hget, htol, hmin, heq⟩ | ⟨hnone, heq⟩
      · left
        refine ⟨i + 1, r, by simpa using hget, htol, ?_, ?_⟩
        · intro j s hj hgs
          cases j with
          | zero =>
            rw [List.get?_cons_zero, Option.some.injEq] at hgs
            subst hgs
            intro hc
            exact h0 (by rwa [abs_sub_comm] at hc)
          | succ j' =>
            exact hmin j' s (by omega) (by simpa using hgs)
        · simp only [insertWord]
          rw [if_neg h0, heq]
          rfl
      · right
        refine ⟨?_, ?_⟩
        · intro r hr
          rcases List.mem_cons.mp hr with rfl | hmem
          · intro hc
            exact h0 (by rwa [abs_sub_comm] at hc)
          · exact hnone r hmem
        · simp only [insertWord]
          rw [if_neg h0, heq]
          rfl

/-- Witness for C8 at a concrete state: inserting a word with vertical
center 15 into the one-row state whose representative y is 5 assigns it
to that row (distance 10 < 30, exhibited pre-update), with the updated
entry built from the row's previous y and words. -/
theorem C8_witness :
    ∃ i r, ([⟨5, [mkWord "a" 0 0 10 10]⟩] : List Row).get? i = some r ∧
      |midY (mkWord "b" 0 10 10 20) - r.y| < rowTolerance ∧
      (∀ j s, j < i → ([⟨5, [mkWord "a" 0 0 10 10]⟩] : List Row).get? j = some s →
        ¬(|midY (mkWord "b" 0 10 10 20) - s.y| < rowTolerance)) ∧
      insertWord (midY (mkWord "b" 0 10 10 20)) (mkWord "b" 0 10 10 20)
          [⟨5, [mkWord "a" 0 0 10 10]⟩] =
        ([⟨5, [mkWord "a" 0 0 10 10]⟩] : List Row).set i
          ⟨(r.y * ((r.words.length : ℚ) + 1) + midY (mkWord "b" 0 10 10 20)) /
              ((r.words.length : ℚ) + 2),
            r.words ++ [mkWord "b" 0 10 10 20]⟩ := by
  rcases C8_assignment [⟨5, [mkWord "a" 0 0 10 10]⟩] (mkWord "b" 0 10 10 20) with
    h | ⟨hnone, -⟩
  · exact h
  · exact absurd
      (by decide :
        |midY (mkWord "b" 0 10 10 20) - (⟨5, [mkWord "a" 0 0 10 10]⟩ : Row).y| < rowTolerance)
      (hnone ⟨5, [mkWord "a" 0 0 10 10]⟩ (List.mem_cons_self _ _))

/-- C1 fails on the code: clustering the two words of `c1ws` (vertical
centers 5 and 15, both within tolerance of one row) leaves the row's
representative y at `(5*2 + 15)/3 = 25/3`, not the arithmetic mean
`(5 + 15)/2 = 10` that the claimed update rule
`(oldAvg*n + newVal)/(n+1)` would give: the source pushes the word
before reading `words.length`, so it divides by the post-insertion count
plus one. -/
theorem C1_counterexample :
    (clusterRows c1ws).map Row.y = [25 / 3] ∧
      (25 / 3 : ℚ) ≠
        (midY (mkWord "a" 0 0 10 10) + midY (mkWord "b" 0 10 10 20)) / 2 := by
  decide

/-- C1 (amended): the update rule is
`(oldAvg*(n+1) + newVal)/(n+2)` over the `n` previous member words, so
at every point the representative y of each row equals the mean of its
member words' vertical centers with the seed word's center counted
twice: `(c0 + (c0 + ... + cn)) / (n + 2)`. -/
theorem C1_amended (ws : List Word) (r : Row) (h : r ∈ clusterRows ws) :
    ∃ w0 tl, r.words = w0 :: tl ∧
      r.y = (midY w0 + (r.words.map midY).sum) / ((r.words.length : ℚ) + 1) :=
  clusterRows_inv ws r h

/-- Witness for C1 (amended) on the concrete row produced from `c1ws`. -/
theorem C1_witness :
    ∃ w0 tl, c1row.words = w0 :: tl ∧
      c1row.y = (midY w0 + (c1row.words.map midY).sum) / ((c1row.words.length : ℚ) + 1) :=
  C1_amended c1ws c1row (by decide)

/-- C4: for every nonempty row of words, the number of cells produced by
column segmentation equals 1 plus the number of consecutive-word gaps
strictly exceeding the threshold, and is therefore antitone in the
threshold: `t1 ≤ t2` implies segmentation with `t2` yields at most as
many cells as with `t1`. -/
theorem C4_gap_monotone (t1 t2 : ℚ) (ws : List Word) (hne : ws ≠ []) (h12 : t1 ≤ t2) :
    (segmentCells t1 ws).length = 1 + (rowGaps ws).countP (fun g => decide (t1 < g)) ∧
      (segmentCells t2 ws).length ≤ (segmentCells t1 ws).length := by
  obtain ⟨w, rest, rfl⟩ := List.exists_cons_of_ne_nil hne
  refine ⟨segmentGo_length t1 rest w.text w, ?_⟩
  show (segmentGo t2 w.text w rest).length ≤ (segmentGo t1 w.text w rest).length
  rw [segmentGo_length t1 rest w.text w, segmentGo_length t2 rest w.text w]
  have hmono :
      (gapsFrom w rest).countP (fun g => decide (t2 < g)) ≤
        (gapsFrom w rest).countP (fun g => decide (t1 < g)) := by
    refine List.countP_mono_left ?_
    intro g _ hg
    rw [decide_eq_true_eq] at hg ⊢
    exact lt_of_le_of_lt h12 hg
  omega

/-- Witness for C4 on a two-word row with a 15-pixel gap and thresholds
10 ≤ 20: two cells at threshold 10, one at threshold 20. -/
theorem C4_witness :
    (segmentCells 10 c4ws).length = 1 + (rowGaps c4ws).countP (fun g => decide ((10 : ℚ) < g)) ∧
      (segmentCells 20 c4ws).length ≤ (segmentCells 10 c4ws).length :=
  C4_gap_monotone 10 20 c4ws (by decide) (by decide)

/-- C2: for every input word list the returned grid is rectangular —
every row has length `numCols`, which is the maximum cell count over all
rows and is at least 1 whenever a row exists — and no row is truncated:
each padded row extends the corresponding segmented row. -/
theorem C2_rectangular (ws : List Word) :
    (∀ row ∈ (transform ws).structuredData, row.length = numCols ws) ∧
      ((transform ws).structuredData ≠ [] →
        1 ≤ numCols ws ∧ numCols ws = specMaxCellCount ws) ∧
      List.Forall₂ (fun r p => ∃ t, p = r ++ t)
        (cellRows ws) ((transform ws).structuredData) := by
  have hlow : ∀ r ∈ cellRows ws, 1 ≤ r.length := by
    intro r hr
    rw [cellRows, List.mem_map] at hr
    obtain ⟨row, hrow, rfl⟩ := hr
    have hne := rowInv_words_ne_nil (clusterRows_inv ws row hrow)
    have hx : sortX row.words ≠ [] := by
      intro hnil
      have hperm : List.Perm (sortX row.words) row.words :=
        List.perm_insertionSort wordXLE row.words
      rw [hnil] at hperm
      exact hne hperm.nil_eq.symm
    obtain ⟨w0, rest, hw0⟩ := List.exists_cons_of_ne_nil hx
    rw [hw0]
    simp only [segmentCells]
    exact List.length_pos.mpr (segmentGo_ne_nil gapThreshold rest w0.text w0)
  cases ws with
  | nil =>
    refine ⟨?_, ?_, ?_⟩
    · intro row hrow; cases hrow
    · intro h; exact absurd rfl h
    · exact List.Forall₂.nil
  | cons w l =>
    rw [transform_cons]
    have hgrid : (gridOf (w :: l)) = (cellRows (w :: l)).map (padRow (numCols (w :: l))) := rfl
    refine ⟨?_, ?_, ?_⟩
    · intro row hrow
      rw [hgrid, List.mem_map] at hrow
      obtain ⟨r, hr, rfl⟩ := hrow
      have hle : r.length ≤ numCols (w :: l) :=
        mem_le_foldl_max _ 1 r.length (List.mem_map_of_mem List.length hr)
      show (r ++ List.replicate (numCols (w :: l) - r.length) "—").length = numCols (w :: l)
      rw [List.length_append, List.length_replicate]
      omega
    · intro hne
      have hcne : cellRows (w :: l) ≠ [] := by
        intro h0
        apply hne
        rw [hgrid, h0, List.map_nil]
      have hLne : (cellRows (w :: l)).map List.length ≠ [] := by
        intro h0
        exact hcne (List.map_eq_nil_iff.mp h0)
      have hL1 : ∀ x ∈ (cellRows (w :: l)).map List.length, 1 ≤ x := by
        intro x hx
        rw [List.mem_map] at hx
        obtain ⟨r, hr, rfl⟩ := hx
        exact hlow r hr
      exact ⟨le_foldl_max _ 1,
        foldl_max_one_eq_zero ((cellRows (w :: l)).map List.length) hLne hL1⟩
    · rw [hgrid, List.forall₂_map_right_iff]
      rw [List.forall₂_same]
      intro r _
      exact ⟨List.replicate (numCols (w :: l) - r.length) "—", rfl⟩

/-- Witness for C2 on a concrete nonempty input: the grid is nonempty,
`numCols` is at least 1 and equals the maximum cell count. -/
theorem C2_witness : 1 ≤ numCols c2ws ∧ numCols c2ws = specMaxCellCount c2ws :=
  (C2_rectangular c2ws).2.1 (by decide)

/-- C5 fails on the code at the 50% boundary: the first clustered row of
`c5ws` has 3 words, spans exactly half the document width, lies in the
top third, has evenly spaced gaps (coefficient of variation 0), and
matches no header term — so the claimed characterization (structural
span `≥ 50%`) would flag it — yet the primary scan does not flag it,
because the source requires `rowWidthRatio > 0.5` strictly. -/
theorem C5_counterexample :
    (clusterRows c5ws).get? 0 = some c5row0 ∧
      3 ≤ c5row0.words.length ∧
      1 / 2 ≤ rowSpan (sortX c5row0.words) / docWidth c5ws ∧
      c5row0.y < docMinY c5ws + docHeight c5ws / 3 ∧
      evenSpacingB (sortX c5row0.words) = true ∧
      lexMatchB (sortX c5row0.words) = false ∧
      0 ∉ primaryGo (docMinY c5ws) (docWidth c5ws) (docHeight c5ws) 0 (clusterRows c5ws) := by
  decide

/-- C5 (amended): before the fallback step, row `i` is flagged as a
header row if and only if its concatenated lowercase text contains a
header-vocabulary term, OR it has ≥ 3 words AND spans strictly more than
50% of the document's horizontal extent AND its representative y lies in
the top third AND the inter-word gap spacing test (coefficient of
variation < 0.7) passes. -/
theorem C5_amended (mY dW dH : ℚ) (rows : List Row) (i : Nat) (r : Row)
    (h : rows.get? i = some r) :
    i ∈ primaryGo mY dW dH 0 rows ↔
      ((∃ t ∈ headerTerms, subSeq t.toList (rowTextOf (sortX r.words)).toList = true) ∨
        (3 ≤ r.words.length ∧ 1 / 2 < rowSpan (sortX r.words) / dW ∧
          r.y < mY + dH / 3 ∧ evenSpacingB (sortX r.words) = true)) := by
  rw [primaryGo_mem]
  constructor
  · rintro ⟨k, r', hget, hik, hr'⟩
    have hk : k = i := by omega
    subst hk
    rw [h, Option.some.injEq] at hget
    subst hget
    rw [isHeaderRowB] at hr'
    simp only [Bool.or_eq_true, Bool.and_eq_true, decide_eq_true_eq, lexMatchB,
      List.any_eq_true] at hr'
    rcases hr' with hlex | ⟨⟨⟨h3, hw⟩, ht⟩, he⟩
    · exact Or.inl hlex
    · exact Or.inr ⟨h3, hw, ht, he⟩
  · intro hcond
    refine ⟨i, r, h, by omega, ?_⟩
    rw [isHeaderRowB]
    simp only [Bool.or_eq_true, Bool.and_eq_true, decide_eq_true_eq, lexMatchB,
      List.any_eq_true]
    rcases hcond with hlex | ⟨h3, hw, ht, he⟩
    · exact Or.inl hlex
    · exact Or.inr ⟨⟨⟨h3, hw⟩, ht⟩, he⟩

/-- Witness for C5 (amended): a single row whose text contains the header
term "test" is flagged at index 0. -/
theorem C5_witness : 0 ∈ primaryGo 0 10 10 0 [c5wit] :=
  (C5_amended 0 10 10 [c5wit] 0 c5wit rfl).mpr (Or.inl ⟨"test", by decide, by decide⟩)

/-- C6: if the primary signals flag no row and there are at least 2 rows,
the classifier returns exactly the first row among the first five whose
word count is ≥ 3 and whose span ratio strictly exceeds 0.4 (`find?`
returns the first such enumerated row, and the scan stops there); if no
row qualifies, the header set is empty — a valid, non-error result. -/
theorem C6_fallback (mY dW dH : ℚ) (rows : List Row)
    (hp : primaryGo mY dW dH 0 rows = [])
    (hr : 2 ≤ rows.length) :
    headerIdxs mY dW dH rows =
      match ((rows.take 5).enum).find? (fun p => fbQualB dW p.2) with
      | some p => [p.1]
      | none => [] := by
  have h1 : 1 < rows.length := by omega
  simp only [headerIdxs, hp, List.isEmpty_nil, Bool.true_and, decide_eq_true h1, if_true]
  rw [fbGo_eq dW rows 0]
  rfl

/-- Witness for C6: two rows, no primary flag; the fallback flags the
second row (3 words, span ratio 140/300 > 0.4). -/
theorem C6_witness : headerIdxs 0 300 100 c6rows = [1] :=
  (C6_fallback 0 300 100 c6rows (by decide) (by decide)).trans (by decide)

/-- C3 fails on the code: two words with identical boxes but different
texts produce different grids when their input order is swapped (the
stable sorts keep the tie order), so the grid is not invariant under
permutation of the input word list. -/
theorem C3_counterexample :
    c3b.Perm c3a ∧ (transform c3a).structuredData ≠ (transform c3b).structuredData := by
  constructor
  · decide
  · decide

/-- C3 (amended): the reconstruction is invariant under permutation of
the input order whenever the words' vertical centers are pairwise
distinct (ties between equal centers are resolved by input order by the
stable sort, which the counterexample exploits). -/
theorem C3_amended (ws ws' : List Word) (hp : ws.Perm ws')
    (hd : ws.Pairwise fun a b => midY a ≠ midY b) :
    transform ws = transform ws' := by
  have hsort : sortWords ws = sortWords ws' := by
    have p1 : List.Perm (sortWords ws) ws := List.perm_insertionSort wordLE ws
    have p2 : List.Perm (sortWords ws') ws' := List.perm_insertionSort wordLE ws'
    have p12 : List.Perm (sortWords ws) (sortWords ws') := p1.trans (hp.trans p2.symm)
    have hsym : ∀ {x y : Word}, midY x ≠ midY y → midY y ≠ midY x := fun h => h.symm
    have hd1 : (sortWords ws).Pairwise (fun a b => midY a ≠ midY b) :=
      (p1.pairwise_iff hsym).mpr hd
    have hd2 : (sortWords ws').Pairwise (fun a b => midY a ≠ midY b) :=
      (p2.pairwise_iff hsym).mpr ((hp.pairwise_iff hsym).mp hd)
    have hs1le : (sortWords ws).Pairwise wordLE := List.sorted_insertionSort wordLE ws
    have hs2le : (sortWords ws').Pairwise wordLE := List.sorted_insertionSort wordLE ws'
    have hs1 : (sortWords ws).Sorted wordLT :=
      (hs1le.and hd1).imp (fun h => lt_of_le_of_ne h.1 h.2)
    have hs2 : (sortWords ws').Sorted wordLT :=
      (hs2le.and hd2).imp (fun h => lt_of_le_of_ne h.1 h.2)
    exact List.eq_of_perm_of_sorted p12 hs1 hs2
  have hemp : ws.isEmpty = ws'.isEmpty := by
    cases ws with
    | nil =>
      have : ws' = [] := hp.nil_eq.symm
      rw [this]
    | cons a l =>
      cases ws' with
      | nil => exact absurd hp.eq_nil (List.cons_ne_nil a l)
      | cons b m => rfl
  cases ws with
  | nil =>
    have : ws' = [] := hp.nil_eq.symm
    rw [this]
  | cons a l =>
    cases ws' with
    | nil => exact absurd hp.eq_nil (List.cons_ne_nil a l)
    | cons b m =>
      rw [transform_cons, transform_cons]
      have h1 : clusterRows (a :: l) = clusterRows (b :: m) := by
        rw [clusterRows, clusterRows, hsort]
      have h2 : docMinY (a :: l) = docMinY (b :: m) := by
        rw [docMinY, docMinY, hsort]
      have h3 : docWidth (a :: l) = docWidth (b :: m) := by
        rw [docWidth, docWidth, docMinX, docMinX, docMaxX, docMaxX, hsort]
      have h4 : docHeight (a :: l) = docHeight (b :: m) := by
        rw [docHeight, docHeight, docMaxY, docMaxY, docMinY, docMinY, hsort]
      have h5 : cellRows (a :: l) = cellRows (b :: m) := by
        rw [cellRows, cellRows, h1]
      have h6 : numCols (a :: l) = numCols (b :: m) := by
        rw [numCols, numCols, h5]
      have h7 : gridOf (a :: l) = gridOf (b :: m) := by
        rw [gridOf, gridOf, h5, h6]
      have h8 : headerIdxsOf (a :: l) = headerIdxsOf (b :: m) := by
        rw [headerIdxsOf, headerIdxsOf, h1, h2, h3, h4]
      rw [h7, h8]

/-- Witness for C3 (amended) on two words with distinct vertical centers
presented in both orders. -/
theorem C3_witness : transform c3wA = transform c3wB :=
  C3_amended c3wA c3wB (by decide) (by decide)

end Proofs

end ResultsAnalyser
